import Mathlib

/-!
Verification development for the vrc-embed repository (knuxify/vrc-embed).

This file shallowly embeds the option type system (`vrc_embed/opts.py`),
the render cache (`vrc_embed/render.py`: `get_render_filename`,
`save_render`, `render_exists`) and the image fetch cache
(`vrc_embed/render.py`: `ImageCache.get`, `ImageCache.prune_dormant`)
into Lean, and proves properties about the embedded definitions.

Python strings are modelled as Lean `String`; Python `dict`s (which
preserve insertion order) as association lists; Python `None` and
dynamically typed values as the `PyVal` inductive; raised exceptions as
`Except` results.
-/

namespace VrcEmbed

/-! ## Python string primitives

Models of the Python string operations used by `opts.py`:
`str.split(",")`, `str.strip()`, `str.lower()`, and the builtin `int()`
parser (base 10, surrounding whitespace allowed, optional sign,
underscores permitted between digits).
-/

/-- Python whitespace characters recognised by `str.strip()`:
space, tab, newline, carriage return, vertical tab, form feed. -/
def pyIsSpace (c : Char) : Bool :=
  (c == ' ') || (c == Char.ofNat 9) || (c == Char.ofNat 10) ||
  (c == Char.ofNat 13) || (c == Char.ofNat 11) || (c == Char.ofNat 12)

/-- Model of Python `str.strip()`: drop leading and trailing whitespace. -/
def pyStrip (s : String) : String :=
  String.mk (((s.data.dropWhile pyIsSpace).reverse.dropWhile pyIsSpace).reverse)

/-- Model of Python `str.lower()` (ASCII case folding suffices here). -/
def pyLower (s : String) : String :=
  String.mk (s.data.map Char.toLower)

/-- Split a character list on commas; `[]` yields one empty group,
matching Python `"".split(",") == [""]`. -/
def splitCommaChars : List Char → List (List Char)
  | [] => [[]]
  | c :: rest =>
    match splitCommaChars rest with
    | [] => [[]]
    | g :: gs => if c = ',' then [] :: g :: gs else (c :: g) :: gs

/-- Model of Python `str.split(",")`. -/
def pySplitComma (s : String) : List String :=
  (splitCommaChars s.data).map (fun cs => String.mk cs)

/-- Underscore handling of Python's `int()` literal grammar: digits with
single underscores strictly between digits. Returns the digit characters
with underscores removed, or `none` when malformed. -/
def stripUnderscores : List Char → Option (List Char)
  | [] => some []
  | c :: rest =>
    if c.isDigit then (stripUnderscores rest).map (fun l => c :: l)
    else if c = Char.ofNat 95 then
      match rest with
      | [] => none
      | r :: _ => if r.isDigit then stripUnderscores rest else none
    else none

/-- Numeric value of a list of decimal digit characters. -/
def charsToNat (cs : List Char) : Nat :=
  cs.foldl (fun acc c => acc * 10 + (c.toNat - 48)) 0

/-- Model of Python's builtin `int(s)` on a string argument:
strip surrounding whitespace, optional single sign, then a nonempty
digit run (underscores allowed between digits). `none` models the
`ValueError` raised on malformed input. -/
def pyIntParse (s : String) : Option Int :=
  match (pyStrip s).data with
  | [] => none
  | c :: rest =>
    let signed : Bool × List Char :=
      if c = Char.ofNat 45 then (true, rest)
      else if c = Char.ofNat 43 then (false, rest)
      else (false, c :: rest)
    match signed.2 with
    | [] => none
    | d :: _ =>
      if d.isDigit then
        match stripUnderscores signed.2 with
        | none => none
        | some ds =>
          some (if signed.1 then -(charsToNat ds : Int) else (charsToNat ds : Int))
      else none

/-- Python `repr` of a list of strings, as produced by an f-string such
as `f"must be one of {tparam}"`; each element is wrapped in single
quotes (character 39). -/
def pyStrListRepr (l : List String) : String :=
  "[" ++ String.intercalate ", "
    (l.map (fun s => String.singleton (Char.ofNat 39) ++ s ++ String.singleton (Char.ofNat 39)))
  ++ "]"

/-! ## Data model for `opts.py` -/

/-- A dynamically typed Python value as produced by
`OptionsManager.value_from_type_tuple` and stored in configurations.
`vnone` models Python `None`. -/
inductive PyVal
  | vstr (s : String)
  | vint (n : Int)
  | vbool (b : Bool)
  | vlist (l : List PyVal)
  | vnone

/-- A type tuple, as accepted by `OptionsManager.type_tuple_is_valid`.
This inductive represents exactly the tuples that validator accepts:
the tag strings become constructors, and each constructor carries the
validated parameter shape (`int` may carry optional `min`/`max` bounds;
`enum` carries its list of string values; `list` carries the inner type
tuple; the parameterless tags carry nothing). -/
inductive TypeTuple
  | tstr
  | tint (min? : Option Int) (max? : Option Int)
  | tbool
  | turl
  | tcolor
  | tenum (allowed : List String)
  | tlist (inner : TypeTuple)
deriving DecidableEq

/-- One option's schema entry: its type tuple and optional default
(`data["type"]` and `data.get("default", None)` in the source). -/
structure OptDef where
  type : TypeTuple
  default : Option String
deriving DecidableEq

/-- An options dictionary (`OptionsManager.options`), as an
insertion-ordered association list, like a Python `dict`. -/
abbrev Schema := List (String × OptDef)

/-- A parsed configuration: option name to converted value. -/
abbrev Config := List (String × PyVal)

/-- The character class `[0-9a-fA-F]`. -/
def isHexDigitChar (c : Char) : Bool :=
  c.isDigit || (97 ≤ c.toNat && c.toNat ≤ 102) || (65 ≤ c.toNat && c.toNat ≤ 70)

/-- `re.match("[0-9a-fA-F]{n}", value)` is a *prefix* match: it succeeds
iff the string has at least `n` characters and its first `n` characters
are hexadecimal digits. (The source's pattern is unanchored.) -/
def reMatchHexN (n : Nat) (value : String) : Bool :=
  decide (n ≤ value.length) && (value.data.take n).all isHexDigitChar

/-- `value[i]*2` for a character: the character doubled. -/
def dupChar (c : Char) : String := String.mk [c, c]

/-- The list comprehension of the `list` branch:
`[cls.value_from_type_tuple(x.strip(), tparam) for x in value.split(",")]`,
evaluated left to right, first exception aborting the whole list;
`f` is the conversion against the inner type tuple. -/
def convertListWith (f : String → Except String PyVal) : List String → Except String (List PyVal)
  | [] => .ok []
  | x :: rest =>
    match f (pyStrip x) with
    | .error e => .error e
    | .ok v =>
      match convertListWith f rest with
      | .error e => .error e
      | .ok vs => .ok (v :: vs)

/-- Embedding of `OptionsManager.value_from_type_tuple` (opts.py
lines 134-194), structurally recursive on the type tuple (the curried
argument order is swapped relative to the source so that the recursion
is structural; `value_from_type_tuple` below restores the source's
signature). Converts a raw string against an (already validated)
type tuple; `Except.error` models a raised `ValueError`. Note the
faithful quirks of the source: the `color` branch falls off the end of
the function (returning Python `None`, modelled `.ok .vnone`) when the
unanchored regex check passes but the length is neither 3 nor 6. -/
def valueFromTT : TypeTuple → String → Except String PyVal
  | .tstr => fun value => .ok (.vstr value)
  | .tint min? max? => fun value =>
    match pyIntParse value with
    | none => .error ("Invalid integer: " ++ value)
    | some n =>
      match min? with
      | some m =>
        if n < m then .error ("Value is lower than minimum (" ++ toString m ++ ")")
        else
          match max? with
          | some M =>
            if n > M then .error ("Value is higher than maximum (" ++ toString M ++ ")")
            else .ok (.vint n)
          | none => .ok (.vint n)
      | none =>
        match max? with
        | some M =>
          if n > M then .error ("Value is higher than maximum (" ++ toString M ++ ")")
          else .ok (.vint n)
        | none => .ok (.vint n)
  | .tbool => fun value =>
    if pyLower value == "true" then .ok (.vbool true)
    else if (value == "") || (pyLower value == "false") then .ok (.vbool false)
    else .error ("Invalid boolean: " ++ value)
  | .turl => fun value => .ok (.vstr value)
  | .tcolor => fun value =>
    if (value != "") && !(reMatchHexN 3 value) && !(reMatchHexN 6 value) then
      .error "Color value must be hex color without transparency and without # prefix"
    else if value.length = 3 then
      .ok (.vstr ("#" ++ dupChar (value.data.getD 0 ' ') ++ dupChar (value.data.getD 1 ' ')
        ++ dupChar (value.data.getD 2 ' ')))
    else if value.length = 6 then
      .ok (.vstr ("#" ++ value))
    else
      .ok .vnone
  | .tenum allowed => fun value =>
    if !(allowed.contains value) then
      .error ("Invalid value " ++ value ++ ", must be one of " ++ pyStrListRepr allowed)
    else .ok (.vstr value)
  | .tlist inner => fun value =>
    if value == "" then .ok (.vlist [])
    else
      match convertListWith (valueFromTT inner) (pySplitComma value) with
      | .error e => .error e
      | .ok vs => .ok (.vlist vs)

/-- `OptionsManager.value_from_type_tuple` with the source's argument
order. -/
def value_from_type_tuple (value : String) (tt : TypeTuple) : Except String PyVal :=
  valueFromTT tt value

/-! ## OptionsManager -/

/-- The Python exceptions surfaced by `OptionsManager` methods:
`AttributeError` (attribute access on an instance whose `options`
attribute was never set) and `ValueError` (validation failures). -/
inductive PyError
  | attributeError (attr : String)
  | valueError (msg : String)

/-- The default-validation loop of `OptionsManager.set_options`
(opts.py lines 18-34). Type-tuple structural validity
(`type_tuple_is_valid`) is captured by the `TypeTuple` inductive itself,
which represents exactly the tuples that validator accepts; what remains
is validating each declared default against its own type tuple. -/
def validateDefaults : Schema → Except String Unit
  | [] => .ok ()
  | (opt, data) :: rest =>
    match data.default with
    | none => validateDefaults rest
    | some d =>
      match value_from_type_tuple d data.type with
      | .error e => .error ("Invalid default value for " ++ opt ++ ": " ++ e)
      | .ok _ => validateDefaults rest

/-- The state of an `OptionsManager` instance. `options = none` models
an instance whose `options` *attribute was never assigned* (Python
`__init__` only calls `set_options` when the argument is truthy). -/
structure OptionsManager where
  options : Option Schema

/-- Embedding of `OptionsManager.__init__` (opts.py lines 13-16)
composed with `set_options`: when the `options` argument is falsy
(Python `None`, modelled `none`, or an empty dict, modelled `some []`),
`set_options` is never called and the `options` attribute stays unset;
otherwise `set_options` validates the schema (raising `ValueError` on
an invalid default) and assigns it. -/
def OptionsManager.construct (options : Option Schema) : Except String OptionsManager :=
  match options with
  | none => .ok ⟨none⟩
  | some opts =>
    if opts.isEmpty then .ok ⟨none⟩
    else
      match validateDefaults opts with
      | .error e => .error e
      | .ok _ => .ok ⟨some opts⟩

/-- The body of `OptionsManager.get_defaults` (opts.py lines 36-41):
`out[opt] = data.get("default", None)` for every option, in schema
order. Note it emits the *raw* declared default, not its converted
form. -/
def get_defaults_of (schema : Schema) : Config :=
  schema.map (fun p =>
    (p.1, match p.2.default with
          | some s => PyVal.vstr s
          | none => PyVal.vnone))

/-- `OptionsManager.get_defaults` as a method: accessing `self.options`
on an instance whose attribute was never set raises `AttributeError`. -/
def OptionsManager.get_defaults (m : OptionsManager) : Except PyError Config :=
  match m.options with
  | none => .error (.attributeError "options")
  | some schema => .ok (get_defaults_of schema)

/-- `args.get(opt, None)` on a werkzeug multi-dict: the first value
listed for the key, if any. -/
def lookupArg (args : List (String × String)) (k : String) : Option String :=
  (args.find? (fun p => p.1 == k)).map (fun p => p.2)

/-- Key lookup in the options dict (`arg in self.options` /
`self.options.items()` access). -/
def lookupOpt (schema : Schema) (k : String) : Option OptDef :=
  (schema.find? (fun p => p.1 == k)).map (fun p => p.2)

/-- The unknown-key loop of `parse_args` (opts.py lines 45-47):
`for arg in args.keys(): if arg not in self.options: raise
ValueError(f"Unknown option {arg}")`. -/
def checkUnknown (schema : Schema) : List String → Except String Unit
  | [] => .ok ()
  | k :: rest =>
    if (lookupOpt schema k).isSome then checkUnknown schema rest
    else .error ("Unknown option " ++ k)

/-- Lines 51-53 of `parse_args`: the effective raw string for one
option — the supplied argument if present, else the declared default if
present, else nothing. -/
def effectiveValue (args : List (String × String)) (p : String × OptDef) : Option String :=
  match lookupArg args p.1 with
  | none => p.2.default
  | some v => some v

/-- The output-building loop of `parse_args` (opts.py lines 49-61),
iterating over the schema in insertion order. -/
def buildConfig (args : List (String × String)) : Schema → Except String Config
  | [] => .ok []
  | p :: rest =>
    match effectiveValue args p with
    | none =>
      match buildConfig args rest with
      | .error e => .error e
      | .ok out => .ok ((p.1, PyVal.vnone) :: out)
    | some v =>
      match value_from_type_tuple v p.2.type with
      | .error e => .error ("Invalid value for " ++ p.1 ++ ": " ++ e)
      | .ok val =>
        match buildConfig args rest with
        | .error e => .error e
        | .ok out => .ok ((p.1, val) :: out)

/-- The body of `OptionsManager.parse_args` (opts.py lines 43-61):
reject unknown keys, then build the configuration. -/
def parse_args_of (schema : Schema) (args : List (String × String)) : Except String Config :=
  match checkUnknown schema (args.map Prod.fst) with
  | .error e => .error e
  | .ok _ => buildConfig args schema

/-- `OptionsManager.parse_args` as a method: accessing `self.options`
on an instance whose attribute was never set raises `AttributeError`;
validation failures surface as `ValueError`. -/
def OptionsManager.parse_args (m : OptionsManager) (args : List (String × String)) :
    Except PyError Config :=
  match m.options with
  | none => .error (.attributeError "options")
  | some schema =>
    match parse_args_of schema args with
    | .error e => .error (.valueError e)
    | .ok out => .ok out

/-- The value `parse_args` emits for one option when it succeeds: the
conversion of the effective raw string, or null when neither an
argument nor a default is present. (The `.getD .vnone` fallback is
never exercised on the success path.) -/
def effectiveConvert (args : List (String × String)) (p : String × OptDef) : PyVal :=
  match effectiveValue args p with
  | none => .vnone
  | some v => ((value_from_type_tuple v p.2.type).toOption).getD .vnone

/-- The converted form of an option's declared default (null when it
has none); what `parse_args` emits for the option when no argument
supplies it. -/
def defaultConverted (d : OptDef) : PyVal :=
  match d.default with
  | none => .vnone
  | some s => ((value_from_type_tuple s d.type).toOption).getD .vnone

/-- Example schema: one color option with a 3-digit default. -/
def schemaColorEx : Schema := [("bg", ⟨.tcolor, some "fff"⟩)]

/-- Example schema: a defaulted color option and a bounded integer
option without a default. -/
def schemaTwoEx : Schema :=
  [("bg", ⟨.tcolor, some "fff"⟩), ("n", ⟨.tint (some 1) (some 10), none⟩)]

/-! ## Claims about the option type system -/

/-- C1: behavior of `value_from_type_tuple` with a color spec at the
decisive inputs. The first three conjuncts match the claim ("fff" is
doubled into "#ffffff", a 6-digit input is "#"-prefixed unchanged,
"zz" errors); the last three contradict it: the empty string and
"ffff" (4 hex digits) return Python `None` instead of raising, and
"fffzzz" — whose first three characters satisfy the *unanchored*
`re.match` — is accepted and returned as "#fffzzz" despite its non-hex
characters. The claim says every input that is not exactly 3 or 6 hex
digits fails with an error; the code does not. -/
theorem C1_color_conversion_eval :
  value_from_type_tuple "fff" .tcolor = .ok (.vstr "#ffffff")
  ∧ value_from_type_tuple "181B1F" .tcolor = .ok (.vstr "#181B1F")
  ∧ value_from_type_tuple "zz" .tcolor
      = .error "Color value must be hex color without transparency and without # prefix"
  ∧ value_from_type_tuple "" .tcolor = .ok .vnone
  ∧ value_from_type_tuple "ffff" .tcolor = .ok .vnone
  ∧ value_from_type_tuple "fffzzz" .tcolor = .ok (.vstr "#fffzzz") :=
  ⟨rfl, rfl, rfl, rfl, rfl, rfl⟩

/-- C10: constructing an `OptionsManager` with no argument or with an
empty options dict leaves the `options` attribute unset, so
`parse_args` (for every argument mapping, including the empty one) and
`get_defaults` raise `AttributeError` instead of treating the instance
as having an empty schema. -/
theorem C10_unset_options_attribute :
  OptionsManager.construct none = .ok ⟨none⟩
  ∧ OptionsManager.construct (some []) = .ok ⟨none⟩
  ∧ (∀ args : List (String × String),
      OptionsManager.parse_args ⟨none⟩ args = .error (.attributeError "options"))
  ∧ OptionsManager.get_defaults ⟨none⟩ = .error (.attributeError "options") :=
  ⟨rfl, rfl, fun _ => rfl, rfl⟩

/-- C10 witness: the empty argument mapping in particular raises
`AttributeError` rather than parsing against an empty schema. -/
theorem C10_unset_options_attribute_witness :
  OptionsManager.parse_args ⟨none⟩ [] = .error (.attributeError "options") :=
  C10_unset_options_attribute.2.2.1 []

/-- C2 counterexample: a schema with a color option defaulting to
"fff" is accepted at construction, yet `parse_args` on the empty
argument mapping returns the *converted* default "#ffffff" while
`get_defaults` returns the *raw* default "fff": the two configurations
differ, refuting the claim that they are equal for every accepted
schema. -/
theorem C2_defaults_counterexample :
  OptionsManager.construct (some schemaColorEx) = .ok ⟨some schemaColorEx⟩
  ∧ OptionsManager.parse_args ⟨some schemaColorEx⟩ [] = .ok [("bg", .vstr "#ffffff")]
  ∧ OptionsManager.get_defaults ⟨some schemaColorEx⟩ = .ok [("bg", .vstr "fff")]
  ∧ ([("bg", PyVal.vstr "#ffffff")] : Config) ≠ [("bg", PyVal.vstr "fff")] := by
  refine ⟨rfl, rfl, rfl, ?_⟩
  intro h
  injection h with h1 _
  injection h1 with _ h2
  injection h2 with h3
  exact absurd h3 (by decide)

/-- C2 (amended): for every schema accepted at construction,
`parse_args` on an empty raw-parameter mapping succeeds and returns
the configuration assigning every declared option the *converted* form
of its declared default (null when it has none). This equals
`get_defaults` — which emits the raw, unconverted defaults — only when
every default's conversion is the identity. -/
theorem C2_parse_empty_gives_converted_defaults (schema : Schema)
    (h : validateDefaults schema = .ok ()) :
    parse_args_of schema [] = .ok (schema.map (fun p => (p.1, defaultConverted p.2))) := by
  have hbuild : ∀ s : Schema, validateDefaults s = .ok () →
      buildConfig [] s = .ok (s.map (fun p => (p.1, defaultConverted p.2))) := by
    intro s
    induction s with
    | nil => intro _; rfl
    | cons p rest ih =>
      obtain ⟨pn, pd⟩ := p
      intro hs
      have heff : effectiveValue [] (pn, pd) = pd.default := rfl
      cases hd : pd.default with
      | none =>
        have hrest : validateDefaults rest = .ok () := by
          simpa [validateDefaults, hd] using hs
        simp [buildConfig, heff, hd, ih hrest, defaultConverted]
      | some d =>
        cases hc : value_from_type_tuple d pd.type with
        | error e =>
          exfalso
          simp [validateDefaults, hd, hc] at hs
        | ok v =>
          have hrest : validateDefaults rest = .ok () := by
            simpa [validateDefaults, hd, hc] using hs
          simp [buildConfig, heff, hd, hc, ih hrest, defaultConverted, Except.toOption]
  have : checkUnknown schema [] = .ok () := rfl
  simp [parse_args_of, this, hbuild schema h]

/-- C2 witness: the amended statement at the color example schema. -/
theorem C2_parse_empty_gives_converted_defaults_witness :
    parse_args_of schemaColorEx []
      = .ok (schemaColorEx.map (fun p => (p.1, defaultConverted p.2))) :=
  C2_parse_empty_gives_converted_defaults schemaColorEx rfl

/-- The unknown-key loop errors on the first argument key that is not
declared in the schema. -/
theorem checkUnknown_error_of_find (schema : Schema) :
    ∀ (keys : List String) (k : String),
      keys.find? (fun a => (lookupOpt schema a).isNone) = some k →
      checkUnknown schema keys = .error ("Unknown option " ++ k) := by
  intro keys
  induction keys with
  | nil => intro k h; simp at h
  | cons a rest ih =>
    intro k h
    cases hl : lookupOpt schema a with
    | none =>
      rw [List.find?_cons_of_pos _ (by simp [hl])] at h
      injection h with h
      subst h
      simp [checkUnknown, hl]
    | some d =>
      rw [List.find?_cons_of_neg _ (by simp [hl])] at h
      simp [checkUnknown, hl, ih k h]

/-- When the output-building loop succeeds, its output is exactly the
schema's option names in schema order, each mapped to the conversion of
its effective raw string (or null when there is none). -/
theorem buildConfig_ok_eq (args : List (String × String)) :
    ∀ (schema : Schema) (out : Config),
      buildConfig args schema = .ok out →
      out = schema.map (fun p => (p.1, effectiveConvert args p)) := by
  intro schema
  induction schema with
  | nil =>
    intro out h
    simp only [buildConfig] at h
    injection h with h
    simp [← h]
  | cons p rest ih =>
    intro out h
    simp only [buildConfig] at h
    split at h
    next hv =>
      split at h
      next => exact absurd h (by simp)
      next o hb =>
        injection h with h
        subst h
        simp [List.map_cons, effectiveConvert, hv, ih o hb]
    next v hv =>
      split at h
      next => exact absurd h (by simp)
      next val hc =>
        split at h
        next => exact absurd h (by simp)
        next o hb =>
          injection h with h
          subst h
          simp [List.map_cons, effectiveConvert, hv, hc, Except.toOption, ih o hb]

/-- C6: `parse_args` fails with an "Unknown option" error naming the
first argument key not declared in the schema whenever one is present;
and whenever it succeeds, its output is exactly the schema's declared
option names (in schema order, no undeclared key), each option mapped
to the converted supplied value, the converted default when absent, or
null when neither exists. -/
theorem C6_parse_args_exact_keys (schema : Schema) (args : List (String × String)) :
    (∀ k : String,
      (args.map Prod.fst).find? (fun a => (lookupOpt schema a).isNone) = some k →
      parse_args_of schema args = .error ("Unknown option " ++ k))
    ∧ (∀ out : Config, parse_args_of schema args = .ok out →
      out = schema.map (fun p => (p.1, effectiveConvert args p))) := by
  constructor
  · intro k hk
    simp [parse_args_of, checkUnknown_error_of_find schema _ k hk]
  · intro out h
    simp only [parse_args_of] at h
    cases hcu : checkUnknown schema (args.map Prod.fst) with
    | error e => rw [hcu] at h; exact absurd h (by simp)
    | ok u => rw [hcu] at h; exact buildConfig_ok_eq args schema out h

/-- C6 witness: an undeclared key "bogus" is rejected by name, and a
successful parse of the two-option example schema emits exactly its two
declared options. -/
theorem C6_parse_args_exact_keys_witness :
    parse_args_of schemaTwoEx [("bogus", "1")] = .error ("Unknown option " ++ "bogus")
    ∧ ([("bg", PyVal.vstr "#ffffff"), ("n", PyVal.vint 5)] : Config)
        = schemaTwoEx.map (fun p => (p.1, effectiveConvert [("n", "5")] p)) :=
  ⟨(C6_parse_args_exact_keys schemaTwoEx [("bogus", "1")]).1 "bogus" rfl,
   (C6_parse_args_exact_keys schemaTwoEx [("n", "5")]).2 _ rfl⟩

/-- A successful run of the list-branch comprehension converts exactly
the stripped split elements, in order. -/
theorem convertListWith_ok_spec (f : String → Except String PyVal) :
    ∀ (xs : List String) (vs : List PyVal),
      convertListWith f xs = .ok vs →
      vs.length = xs.length ∧
      ∀ (i : Nat) (h1 : i < xs.length) (h2 : i < vs.length),
        f (pyStrip (xs.get ⟨i, h1⟩)) = .ok (vs.get ⟨i, h2⟩) := by
  intro xs
  induction xs with
  | nil =>
    intro vs h
    simp only [convertListWith] at h
    injection h with h
    subst h
    exact ⟨rfl, fun i h1 _ => absurd h1 (by simp)⟩
  | cons x rest ih =>
    intro vs h
    simp only [convertListWith] at h
    cases hf : f (pyStrip x) with
    | error e => rw [hf] at h; exact absurd h (by simp)
    | ok v =>
      rw [hf] at h
      cases hr : convertListWith f rest with
      | error e => rw [hr] at h; exact absurd h (by simp)
      | ok vs0 =>
        rw [hr] at h
        injection h with h
        subst h
        obtain ⟨hlen, helem⟩ := ih vs0 hr
        refine ⟨by simp [hlen], ?_⟩
        intro i h1 h2
        cases i with
        | zero => simpa using hf
        | succ j => simpa using helem j (by simpa using h1) (by simpa using h2)

/-- The list-branch comprehension fails with the first failing
element's own error. -/
theorem convertListWith_error_spec (f : String → Except String PyVal) :
    ∀ (xs : List String) (k : Nat) (hk : k < xs.length) (e : String),
      (∀ (j : Nat) (hj : j < k),
        (f (pyStrip (xs.get ⟨j, Nat.lt_trans hj hk⟩))).isOk = true) →
      f (pyStrip (xs.get ⟨k, hk⟩)) = .error e →
      convertListWith f xs = .error e := by
  intro xs
  induction xs with
  | nil => intro k hk; exact absurd hk (by simp)
  | cons x rest ih =>
    intro k hk e hpre hf
    cases k with
    | zero =>
      simp only [List.get] at hf
      simp [convertListWith, hf]
    | succ m =>
      have h0 : (f (pyStrip x)).isOk = true := by simpa using hpre 0 (Nat.succ_pos m)
      obtain ⟨v, hv⟩ : ∃ v, f (pyStrip x) = .ok v := by
        cases hx : f (pyStrip x) with
        | error e2 => rw [hx] at h0; simp [Except.isOk, Except.toBool] at h0
        | ok v => exact ⟨v, rfl⟩
      have hrest : convertListWith f rest = .error e := by
        refine ih m (by simpa using hk) e ?_ (by simpa using hf)
        intro j hj
        simpa using hpre (j + 1) (by omega)
      simp [convertListWith, hv, hrest]

/-- When every element converts, the list-branch comprehension
succeeds. -/
theorem convertListWith_all_ok (f : String → Except String PyVal) :
    ∀ xs : List String,
      (∀ (i : Nat) (h : i < xs.length), (f (pyStrip (xs.get ⟨i, h⟩))).isOk = true) →
      ∃ vs, convertListWith f xs = .ok vs := by
  intro xs
  induction xs with
  | nil => intro _; exact ⟨[], rfl⟩
  | cons x rest ih =>
    intro hall
    obtain ⟨v, hv⟩ : ∃ v, f (pyStrip x) = .ok v := by
      have h0 : (f (pyStrip x)).isOk = true := by simpa using hall 0 (by simp)
      cases hx : f (pyStrip x) with
      | error e2 => rw [hx] at h0; simp [Except.isOk, Except.toBool] at h0
      | ok v => exact ⟨v, rfl⟩
    obtain ⟨vs, hvs⟩ := ih (fun i h => by simpa using hall (i + 1) (by simpa using Nat.succ_lt_succ h))
    exact ⟨v :: vs, by simp [convertListWith, hv, hvs]⟩

/-- C7: the list spec maps the empty string to the empty sequence;
otherwise the input is split on commas, each element is stripped of
surrounding whitespace and recursively converted against the inner
spec in order; the conversion fails with the first failing element's
own error, and succeeds when every element converts. -/
theorem C7_list_conversion (inner : TypeTuple) (value : String) :
    (value_from_type_tuple "" (.tlist inner) = .ok (.vlist []))
    ∧ (∀ vs : List PyVal,
        value_from_type_tuple value (.tlist inner) = .ok (.vlist vs) → value ≠ "" →
        vs.length = (pySplitComma value).length ∧
        ∀ (i : Nat) (h1 : i < (pySplitComma value).length) (h2 : i < vs.length),
          value_from_type_tuple (pyStrip ((pySplitComma value).get ⟨i, h1⟩)) inner
            = .ok (vs.get ⟨i, h2⟩))
    ∧ (∀ (k : Nat) (hk : k < (pySplitComma value).length) (e : String), value ≠ "" →
        (∀ (j : Nat) (hj : j < k),
          (value_from_type_tuple
            (pyStrip ((pySplitComma value).get ⟨j, Nat.lt_trans hj hk⟩)) inner).isOk = true) →
        value_from_type_tuple (pyStrip ((pySplitComma value).get ⟨k, hk⟩)) inner = .error e →
        value_from_type_tuple value (.tlist inner) = .error e)
    ∧ (value ≠ "" →
        (∀ (i : Nat) (h : i < (pySplitComma value).length),
          (value_from_type_tuple (pyStrip ((pySplitComma value).get ⟨i, h⟩)) inner).isOk = true) →
        ∃ vs, value_from_type_tuple value (.tlist inner) = .ok (.vlist vs)) := by
  have hunfold : ∀ v : String, value_from_type_tuple v (.tlist inner)
      = if v == "" then .ok (.vlist [])
        else
          match convertListWith (valueFromTT inner) (pySplitComma v) with
          | .error e => .error e
          | .ok vs => .ok (.vlist vs) := fun _ => rfl
  refine ⟨rfl, ?_, ?_, ?_⟩
  · intro vs hok hne
    rw [hunfold, if_neg (by simpa using hne)] at hok
    cases hcl : convertListWith (valueFromTT inner) (pySplitComma value) with
    | error e => rw [hcl] at hok; exact absurd hok (by simp)
    | ok vs0 =>
      rw [hcl] at hok
      injection hok with hok
      injection hok with hok
      subst hok
      exact convertListWith_ok_spec (valueFromTT inner) (pySplitComma value) vs0 hcl
  · intro k hk e hne hpre hf
    rw [hunfold, if_neg (by simpa using hne)]
    rw [convertListWith_error_spec (valueFromTT inner) (pySplitComma value) k hk e hpre hf]
  · intro hne hall
    obtain ⟨vs, hvs⟩ := convertListWith_all_ok (valueFromTT inner) (pySplitComma value) hall
    exact ⟨vs, by rw [hunfold, if_neg (by simpa using hne), hvs]⟩

/-- C7 witness: converting "a,x" against a list-of-enum spec whose
first element "a" converts fails with the second element's own
enum-membership error. -/
theorem C7_list_conversion_witness :
    value_from_type_tuple "a,x" (.tlist (.tenum ["a", "b"]))
      = .error ("Invalid value " ++ "x" ++ ", must be one of " ++ pyStrListRepr ["a", "b"]) := by
  have hk : 1 < (pySplitComma "a,x").length := by decide
  have hpre : ∀ (j : Nat) (hj : j < 1),
      (value_from_type_tuple (pyStrip ((pySplitComma "a,x").get ⟨j, Nat.lt_trans hj hk⟩))
        (.tenum ["a", "b"])).isOk = true := by
    intro j hj
    have hj0 : j = 0 := by omega
    subst hj0
    show (value_from_type_tuple (pyStrip ((pySplitComma "a,x").get ⟨0, by decide⟩))
        (.tenum ["a", "b"])).isOk = true
    decide
  exact (C7_list_conversion (.tenum ["a", "b"]) "a,x").2.2.1 1 hk _ (by decide) hpre rfl

/-! ## Render cache (`render.py`: `get_render_filename`, `save_render`,
`render_exists`) -/

mutual

/-- Canonical serialization of a Python value as it appears inside the
JSON document handed to the fingerprint library (a stand-in for the
per-value part of a jfpv1 path-value element). -/
def pyValCanon : PyVal → String
  | .vstr s => "s:" ++ s
  | .vint n => "i:" ++ toString n
  | .vbool b => "b:" ++ (cond b "true" "false")
  | .vlist l => "[" ++ pyValCanonList l ++ "]"
  | .vnone => "null"

/-- Serialization of a list of Python values, element by element. -/
def pyValCanonList : List PyVal → String
  | [] => ""
  | x :: rest => pyValCanon x ++ "," ++ pyValCanonList rest

end

/-- A stand-in for the SHA-256 hash of one jfpv1 path-value element:
an injective base-1114112 encoding of the element string (real hash
collisions are negligible and ignored by the spec). -/
def strCode (s : String) : Nat :=
  s.data.foldl (fun acc c => acc * 1114112 + (c.toNat + 1)) 0

/-- The per-option jfpv1 elements of a configuration: one element hash
per key-value pair. -/
def fingerprintElements (opts : Config) : List Nat :=
  opts.map (fun p => strCode (p.1 ++ ":" ++ pyValCanon p.2))

/-- Modelled from the spec: the third-party
`json_fingerprint.create(json.dumps(opts), SHA256, 1)` digest (jfpv1),
whose implementation is not part of this repository. jfpv1 flattens the
JSON object into path-value elements, hashes each element, *sorts* the
element hashes and digests the sorted sequence, so the fingerprint
depends only on the key-value mapping and not on object key order. The
model represents the final digest by the sorted list of element hashes
itself (standing for the SHA-256 hex digest). -/
def json_fingerprint_jfpv1 (opts : Config) : String :=
  toString (List.insertionSort (fun a b : Nat => a ≤ b) (fingerprintElements opts))

/-- Embedding of `get_render_filename` (render.py lines 114-127):
`{user_id}.{embed_base_type}.{fingerprint}.{filetype}` when the options
dict is truthy (nonempty), `{user_id}.{embed_base_type}.{filetype}`
otherwise. -/
def get_render_filename (user_id : String) (embed_base_type : String) (opts : Config)
    (filetype : String) : String :=
  if opts.isEmpty then user_id ++ "." ++ embed_base_type ++ "." ++ filetype
  else
    user_id ++ "." ++ embed_base_type ++ "." ++ json_fingerprint_jfpv1 opts ++ "."
      ++ filetype

/-- The renders directory as a flat map from filename to file
contents (bytes as lists of naturals). -/
abbrev Fs := String → Option (List Nat)

/-- Point update of the filesystem map (`none` deletes). -/
def fsSet (fs : Fs) (k : String) (v : Option (List Nat)) : Fs :=
  fun x => if x = k then v else fs x

/-- Embedding of `save_render` (render.py lines 130-141) as its final
filesystem effect: the payload is written to the dot-prefixed sibling
path and then `os.replace` atomically renames it onto the final
filename (removing the temporary entry and publishing the full payload
in one step). -/
def save_render (fs : Fs) (filename : String) (data : List Nat) : Fs :=
  fsSet (fsSet fs ("." ++ filename) none) filename (some data)

/-- Every filesystem state observable while `save_render` runs: the
initial state, the states during the streamed write where the
dot-prefixed temporary holds each successive prefix of the payload, and
the final state after the atomic rename. -/
def saveRenderTrace (fs : Fs) (filename : String) (data : List Nat) : List Fs :=
  fs :: (List.range (data.length + 1)).map
      (fun i => fsSet fs ("." ++ filename) (some (data.take i)))
    ++ [save_render fs filename data]

/-- Embedding of `render_exists` (render.py lines 143-145): a plain
existence probe. -/
def render_exists (fs : Fs) (filename : String) : Bool :=
  (fs filename).isSome

/-- C4: `save_render` stages the payload at the distinct dot-prefixed
sibling path and only the final atomic rename touches the final
filename: after completion `render_exists` is true for the saved
filename; in every intermediate state the final filename's entry is
unchanged (so no partially written payload is ever visible under it);
other filenames are untouched, and `render_exists` is false on an empty
renders directory. -/
theorem C4_atomic_save (fs : Fs) (filename : String) (data : List Nat) :
    ("." ++ filename ≠ filename)
    ∧ render_exists (save_render fs filename data) filename = true
    ∧ (∀ (i : Nat) (hi : i + 1 < (saveRenderTrace fs filename data).length),
        ((saveRenderTrace fs filename data).get ⟨i, by omega⟩) filename = fs filename)
    ∧ (∀ g : String, g ≠ filename → g ≠ "." ++ filename →
        save_render fs filename data g = fs g)
    ∧ (∀ g : String, render_exists (fun _ => none) g = false) := by
  have hne : "." ++ filename ≠ filename := by
    intro h
    have hlen := congrArg String.length h
    rw [String.length_append] at hlen
    have h1 : (".").length = 1 := rfl
    rw [h1] at hlen
    omega
  have hne2 : filename ≠ "." ++ filename := fun h => hne h.symm
  have hlen : (saveRenderTrace fs filename data).length = data.length + 3 := by
    simp only [saveRenderTrace, List.length_cons, List.length_append, List.length_map,
      List.length_range, List.length_nil]
  refine ⟨hne, ?_, ?_, ?_, fun _ => rfl⟩
  · simp [render_exists, save_render, fsSet]
  · intro i hi
    rw [hlen] at hi
    cases i with
    | zero => rfl
    | succ j =>
      have hj : j < data.length + 1 := by omega
      have hget : (saveRenderTrace fs filename data).get ⟨j + 1, by rw [hlen]; omega⟩
          = fsSet fs ("." ++ filename) (some (data.take j)) := by
        simp only [saveRenderTrace, List.get_eq_getElem, List.getElem_cons_succ]
        rw [List.getElem_append_left (by simpa using hj)]
        simp
      rw [hget]
      simp only [fsSet]
      rw [if_neg hne2]
  · intro g hg1 hg2
    simp only [save_render, fsSet]
    rw [if_neg hg1, if_neg hg2]

/-- C4 witness: saving a concrete payload into an empty directory makes
`render_exists` true for the filename, leaves other names absent, and
the intermediate write state leaves the final filename absent. -/
theorem C4_atomic_save_witness :
    render_exists (save_render (fun _ => none) "u.large.png" [7, 8]) "u.large.png" = true
    ∧ save_render (fun _ => none) "u.large.png" [7, 8] "other" = none
    ∧ ((saveRenderTrace (fun _ => none) "u.large.png" [7, 8]).get ⟨1, by decide⟩)
        "u.large.png" = none :=
  have h := C4_atomic_save (fun _ => none) "u.large.png" [7, 8]
  ⟨h.2.1, h.2.2.2.1 "other" (by decide) (by decide), h.2.2.1 1 (by decide)⟩

/-- C5: `get_render_filename` is a pure function of its inputs whose
result is the dot-joined `user.variant.fingerprint.filetype` string for
a nonempty configuration and `user.variant.filetype` (no fingerprint
segment) for an empty one; and configurations equal as key-value
collections (any reordering) produce the same fingerprint, hence the
same filename. -/
theorem C5_render_filename (u v ft : String) (o1 o2 : Config) :
    (o1 ≠ [] → get_render_filename u v o1 ft
        = u ++ "." ++ v ++ "." ++ json_fingerprint_jfpv1 o1 ++ "." ++ ft)
    ∧ (get_render_filename u v [] ft = u ++ "." ++ v ++ "." ++ ft)
    ∧ (o1.Perm o2 → get_render_filename u v o1 ft = get_render_filename u v o2 ft) := by
  have hne : ∀ o : Config, o ≠ [] →
      get_render_filename u v o ft
        = u ++ "." ++ v ++ "." ++ json_fingerprint_jfpv1 o ++ "." ++ ft := by
    intro o ho
    cases o with
    | nil => exact absurd rfl ho
    | cons a as_ => rfl
  refine ⟨hne o1, rfl, ?_⟩
  intro hp
  have hfp : json_fingerprint_jfpv1 o1 = json_fingerprint_jfpv1 o2 := by
    unfold json_fingerprint_jfpv1
    congr 1
    refine List.eq_of_perm_of_sorted
      ((List.perm_insertionSort _ _).trans
        (((hp.map _).trans (List.perm_insertionSort _ _).symm)))
      (List.sorted_insertionSort _ _) (List.sorted_insertionSort _ _)
  by_cases h1 : o1 = []
  · subst h1
    have h2 : o2 = [] := hp.symm.eq_nil
    subst h2
    rfl
  · have h2 : o2 ≠ [] := by
      intro h
      subst h
      exact h1 hp.eq_nil
    rw [hne o1 h1, hne o2 h2, hfp]

/-- Example configuration and its reordering, for the C5 witness. -/
def o1Ex : Config := [("a", .vint 1), ("b", .vbool true)]

/-- `o1Ex` with its two entries swapped. -/
def o2Ex : Config := [("b", .vbool true), ("a", .vint 1)]

/-- C5 witness: two key-order variants of the same configuration yield
the same render filename. -/
theorem C5_render_filename_witness :
    get_render_filename "usr" "large" o1Ex "svg"
      = get_render_filename "usr" "large" o2Ex "svg" :=
  (C5_render_filename "usr" "large" "svg" o1Ex o2Ex).2.2
    (show List.Perm o1Ex o2Ex from
      List.Perm.swap ("b", PyVal.vbool true) ("a", PyVal.vint 1) [])

/-! ## Image fetch cache (`render.py`: `ImageCache`)

`ImageCache.get` is async; its suspension points interleave with other
tasks. The claims under verification are about a single `get` call's
own effects (result value, single fetch attempt, in-flight marker
bookkeeping) and about sequential compositions of calls, so the
embedding models one call as an atomic state transformer,
parameterized by the wall-clock time (`time.time()`) and by the outcome
of the one streamed HTTP fetch it may perform. The initial busy-wait
loop (`while url in self.download_queue`) is modelled by the premise
`url ∉ download_queue` under which the loop exits immediately. -/

/-- Stand-in for `hashlib.sha512(url.encode("utf-8")).hexdigest()`: an
injective tagging of the URL (real digest collisions are negligible and
ignored, as the source does). -/
def urlHash (url : String) : String := "sha512-" ++ url

/-- Python-dict update `m[k] = v` on an insertion-ordered association
list: overwrite in place when the key exists, append otherwise. -/
def dictSet (m : List (String × Int)) (k : String) (v : Int) : List (String × Int) :=
  if m.any (fun p => p.1 == k) then m.map (fun p => if p.1 == k then (k, v) else p)
  else m ++ [(k, v)]

/-- The mutable state of an `ImageCache` instance: the `last_hit`
timestamp dict, the `download_queue` in-flight set, and the contents of
the temporary directory keyed by URL hash. -/
structure ImageCache where
  last_hit : List (String × Int)
  download_queue : List String
  disk : String → Option (List Nat)

/-- Outcome of the one streamed HTTP fetch attempt inside
`ImageCache.get`: success with the response chunks; failure before the
cache file is opened (e.g. `session.get` raises); or failure mid-stream
after some chunks (possibly zero) were already written to the opened
cache file. -/
inductive FetchResult
  | success (chunks : List (List Nat))
  | failBeforeOpen
  | failAfterChunks (chunks : List (List Nat))

/-- Whether the fetch attempt raised (is caught by the bare `except`). -/
def FetchResult.isFailure : FetchResult → Bool
  | .success _ => false
  | _ => true

/-- What one `ImageCache.get` call produces: the value returned to the
caller (`none` models the `ret = None` failure return), the state after
the call, and how many HTTP fetch attempts were issued (0 on a cache
hit, never more than 1). -/
structure GetResult where
  ret : Option (List Nat)
  state : ImageCache
  attempts : Nat

/-- Embedding of `ImageCache.get` (render.py lines 60-98): refresh
`last_hit[url_hash]`, add the URL to `download_queue`; if a cached file
exists, remove the marker and return the file contents (0 fetch
attempts); otherwise issue one fetch: on success write the streamed
bytes to the cache file and return them, on failure set the return
value to `None` (leaving on disk whatever chunks were already written),
and in every case remove the marker before returning. -/
def ImageCache.get (self : ImageCache) (url : String) (now : Int) (fetch : FetchResult) :
    GetResult :=
  let h := urlHash url
  let self1 : ImageCache := { self with last_hit := dictSet self.last_hit h now }
  let self2 : ImageCache := { self1 with download_queue :=
      if url ∈ self1.download_queue then self1.download_queue
      else self1.download_queue ++ [url] }
  match self2.disk h with
  | some contents =>
    { ret := some contents
      state := { self2 with download_queue := self2.download_queue.filter (fun s => s != url) }
      attempts := 0 }
  | none =>
    match fetch with
    | .success chunks =>
      { ret := some chunks.flatten
        state := { self2 with
          disk := fun k => if k = h then some chunks.flatten else self2.disk k
          download_queue := self2.download_queue.filter (fun s => s != url) }
        attempts := 1 }
    | .failBeforeOpen =>
      { ret := none
        state := { self2 with
          download_queue := self2.download_queue.filter (fun s => s != url) }
        attempts := 1 }
    | .failAfterChunks chunks =>
      { ret := none
        state := { self2 with
          disk := fun k => if k = h then some chunks.flatten else self2.disk k
          download_queue := self2.download_queue.filter (fun s => s != url) }
        attempts := 1 }

/-- One iteration of the `prune_dormant` loop (render.py lines
103-106): when the snapshot entry is more than 12 hours old, drop the
key from `last_hit` and remove its on-disk payload. -/
def pruneStep (now : Int) (st : ImageCache) (p : String × Int) : ImageCache :=
  if now - p.2 > 60 * 60 * 12 then
    { st with
      last_hit := st.last_hit.filter (fun q => q.1 != p.1)
      disk := fun k => if k = p.1 then none else st.disk k }
  else st

/-- The `prune_dormant` loop over the snapshot
`list(self.last_hit.items()).copy()`. -/
def pruneLoop (now : Int) : List (String × Int) → ImageCache → ImageCache
  | [], st => st
  | p :: rest, st => pruneLoop now rest (pruneStep now st p)

/-- Embedding of `ImageCache.prune_dormant` (render.py lines 100-106):
iterate over a snapshot of `last_hit`, dropping every entry older than
12 hours together with its on-disk payload. `now` is the single
`time.time()` reading taken at entry. -/
def ImageCache.prune_dormant (self : ImageCache) (now : Int) : ImageCache :=
  pruneLoop now self.last_hit self

/-- In a dict modelled as an association list with distinct keys, a key
determines its value. -/
theorem snd_unique_of_nodup_keys :
    ∀ (l : List (String × Int)), (l.map Prod.fst).Nodup →
    ∀ (k : String) (v w : Int), (k, v) ∈ l → (k, w) ∈ l → v = w := by
  intro l
  induction l with
  | nil => intro _ k v w hv; simp at hv
  | cons p rest ih =>
    intro hnd k v w hv hw
    simp only [List.map_cons, List.nodup_cons] at hnd
    obtain ⟨hp, hrest⟩ := hnd
    rcases List.mem_cons.mp hv with h1 | h1
    · rcases List.mem_cons.mp hw with h2 | h2
      · rw [← h1] at h2
        injection h2 with _ h3
        exact h3.symm
      · exfalso
        apply hp
        rw [← h1]
        exact List.mem_map.mpr ⟨(k, w), h2, rfl⟩
    · rcases List.mem_cons.mp hw with h2 | h2
      · exfalso
        apply hp
        rw [← h2]
        exact List.mem_map.mpr ⟨(k, v), h1, rfl⟩
      · exact ih hrest k v w h1 h2

/-- A pair survives the prune loop iff it was present before and no
snapshot entry with its key is stale. -/
theorem pruneLoop_lastHit_mem (now : Int) :
    ∀ (snapshot : List (String × Int)) (st : ImageCache) (k : String) (v : Int),
      ((k, v) ∈ (pruneLoop now snapshot st).last_hit) ↔
        ((k, v) ∈ st.last_hit ∧
          ∀ w : Int, (k, w) ∈ snapshot → ¬(now - w > 60 * 60 * 12)) := by
  intro snapshot
  induction snapshot with
  | nil => intro st k v; simp [pruneLoop]
  | cons p rest ih =>
    obtain ⟨pk, pv⟩ := p
    intro st k v
    simp only [pruneLoop]
    rw [ih]
    by_cases hst : now - pv > 60 * 60 * 12
    · have hstep : (pruneStep now st (pk, pv)).last_hit
          = st.last_hit.filter (fun q => q.1 != pk) := by
        unfold pruneStep
        split
        · rfl
        · next hfalse => exact absurd hst hfalse
      rw [hstep]
      constructor
      · rintro ⟨hmem, hrest⟩
        rw [List.mem_filter] at hmem
        obtain ⟨hmem, hne⟩ := hmem
        refine ⟨hmem, ?_⟩
        intro w hw
        rcases List.mem_cons.mp hw with heq | hw2
        · exfalso
          have hk : k = pk := congrArg Prod.fst heq
          simp [hk] at hne
        · exact hrest w hw2
      · rintro ⟨hmem, hall⟩
        have hne : k ≠ pk := by
          intro he
          exact hall pv (by rw [he]; exact List.mem_cons_self _ _) hst
        refine ⟨List.mem_filter.mpr ⟨hmem, by simpa using hne⟩, ?_⟩
        intro w hw
        exact hall w (List.mem_cons_of_mem _ hw)
    · have hstep : pruneStep now st (pk, pv) = st := by
        unfold pruneStep
        split
        · next htrue => exact absurd htrue hst
        · rfl
      rw [hstep]
      constructor
      · rintro ⟨hmem, hrest⟩
        refine ⟨hmem, ?_⟩
        intro w hw
        rcases List.mem_cons.mp hw with heq | hw2
        · have hwv : w = pv := congrArg Prod.snd heq
          rw [hwv]
          exact hst
        · exact hrest w hw2
      · rintro ⟨hmem, hall⟩
        exact ⟨hmem, fun w hw => hall w (List.mem_cons_of_mem _ hw)⟩

/-- The prune loop deletes exactly the on-disk payloads whose key
appears in a stale snapshot entry. -/
theorem pruneLoop_disk (now : Int) :
    ∀ (snapshot : List (String × Int)) (st : ImageCache) (k : String),
      (pruneLoop now snapshot st).disk k
        = if ∃ p ∈ snapshot, p.1 = k ∧ now - p.2 > 60 * 60 * 12 then none
          else st.disk k := by
  intro snapshot
  induction snapshot with
  | nil => intro st k; simp [pruneLoop]
  | cons p rest ih =>
    obtain ⟨pk, pv⟩ := p
    intro st k
    simp only [pruneLoop]
    rw [ih]
    by_cases hst : now - pv > 60 * 60 * 12
    · by_cases hk : ∃ q ∈ rest, q.1 = k ∧ now - q.2 > 60 * 60 * 12
      · rw [if_pos hk]
        obtain ⟨q, hq, hq1, hq2⟩ := hk
        rw [if_pos ⟨q, List.mem_cons_of_mem _ hq, hq1, hq2⟩]
      · rw [if_neg hk]
        have hdisk : (pruneStep now st (pk, pv)).disk k
            = if k = pk then none else st.disk k := by
          unfold pruneStep
          split
          · rfl
          · next hfalse => exact absurd hst hfalse
        rw [hdisk]
        by_cases hkp : k = pk
        · rw [if_pos hkp, if_pos ⟨(pk, pv), List.mem_cons_self _ _, hkp.symm, hst⟩]
        · rw [if_neg hkp, if_neg]
          rintro ⟨q, hq, hq1, hq2⟩
          rcases List.mem_cons.mp hq with heq | hq3
          · subst heq
            exact hkp hq1.symm
          · exact hk ⟨q, hq3, hq1, hq2⟩
    · have hstep : pruneStep now st (pk, pv) = st := by
        unfold pruneStep
        split
        · next htrue => exact absurd htrue hst
        · rfl
      rw [hstep]
      by_cases hk : ∃ q ∈ rest, q.1 = k ∧ now - q.2 > 60 * 60 * 12
      · rw [if_pos hk]
        obtain ⟨q, hq, hq1, hq2⟩ := hk
        rw [if_pos ⟨q, List.mem_cons_of_mem _ hq, hq1, hq2⟩]
      · rw [if_neg hk, if_neg]
        rintro ⟨q, hq, hq1, hq2⟩
        rcases List.mem_cons.mp hq with heq | hq3
        · subst heq
          exact hst hq2
        · exact hk ⟨q, hq3, hq1, hq2⟩

/-- C8: on a well-formed cache state (distinct digests, each tracked
digest backed by an on-disk payload — `os.remove` would raise
otherwise), `prune_dormant` removes exactly the entries whose last hit
is more than 12 hours before `now` — both the map record and the
on-disk payload — and leaves every more recently hit entry untouched in
the map and on disk. -/
theorem C8_prune_dormant (st : ImageCache) (now : Int)
    (hnd : (st.last_hit.map Prod.fst).Nodup)
    (hdisk : ∀ p ∈ st.last_hit, (st.disk p.1).isSome = true) :
    (∀ (k : String) (v : Int),
        ((k, v) ∈ (st.prune_dormant now).last_hit ↔
          ((k, v) ∈ st.last_hit ∧ now - v ≤ 60 * 60 * 12)))
    ∧ (∀ (k : String) (v : Int), (k, v) ∈ st.last_hit → now - v > 60 * 60 * 12 →
        (st.prune_dormant now).disk k = none)
    ∧ (∀ (k : String) (v : Int), (k, v) ∈ st.last_hit → now - v ≤ 60 * 60 * 12 →
        (st.prune_dormant now).disk k = st.disk k)
    ∧ (∀ k : String, (∀ v : Int, (k, v) ∉ st.last_hit) →
        (st.prune_dormant now).disk k = st.disk k) := by
  refine ⟨?_, ?_, ?_, ?_⟩
  · intro k v
    simp only [ImageCache.prune_dormant]
    rw [pruneLoop_lastHit_mem]
    constructor
    · rintro ⟨hmem, hall⟩
      have hv := hall v hmem
      exact ⟨hmem, by omega⟩
    · rintro ⟨hmem, hle⟩
      refine ⟨hmem, ?_⟩
      intro w hw
      have hwv : w = v := snd_unique_of_nodup_keys st.last_hit hnd k w v hw hmem
      rw [hwv]
      omega
  · intro k v hmem hstale
    simp only [ImageCache.prune_dormant]
    rw [pruneLoop_disk, if_pos ⟨(k, v), hmem, rfl, hstale⟩]
  · intro k v hmem hfresh
    simp only [ImageCache.prune_dormant]
    rw [pruneLoop_disk, if_neg]
    rintro ⟨q, hq, hq1, hq2⟩
    obtain ⟨q1, q2⟩ := q
    simp only at hq1
    subst hq1
    have hq2v : q2 = v := snd_unique_of_nodup_keys st.last_hit hnd q1 q2 v hq hmem
    omega
  · intro k hnone
    simp only [ImageCache.prune_dormant]
    rw [pruneLoop_disk, if_neg]
    rintro ⟨q, hq, hq1, _⟩
    obtain ⟨q1, q2⟩ := q
    simp only at hq1
    subst hq1
    exact hnone q2 hq

/-- Example cache state for the C8 witness: one stale and one fresh
entry, both with on-disk payloads. -/
def cachePruneEx : ImageCache :=
  { last_hit := [("h1", 0), ("h2", 50000)]
    download_queue := []
    disk := fun k => if k == "h1" || k == "h2" then some [7] else none }

/-- C8 witness: at time 50000, the entry last hit at 0 (staler than 12
hours = 43200 seconds) is removed from the map and disk, while the
entry last hit at 50000 is kept in both. -/
theorem C8_prune_dormant_witness :
    ((cachePruneEx.prune_dormant 50000).disk "h1" = none)
    ∧ ((cachePruneEx.prune_dormant 50000).disk "h2" = cachePruneEx.disk "h2")
    ∧ (("h2", (50000 : Int)) ∈ (cachePruneEx.prune_dormant 50000).last_hit)
    ∧ (("h1", (0 : Int)) ∉ (cachePruneEx.prune_dormant 50000).last_hit) := by
  have h := C8_prune_dormant cachePruneEx 50000 (by decide) (by decide)
  refine ⟨h.2.1 "h1" 0 (by decide) (by decide),
          h.2.2.1 "h2" 50000 (by decide) (by decide),
          (h.1 "h2" 50000).mpr ⟨by decide, by decide⟩,
          fun hmem => ?_⟩
  have hh := (h.1 "h1" 0).mp hmem
  omega

/-- C3: for a `get` call entered when its URL is not already in flight,
the URL is absent from `download_queue` when the call returns on every
path (cache hit, successful download, failed download); at most one
HTTP fetch is attempted; and when there is no cached file and the fetch
fails, the call returns the failure value (`None`) from that single
attempt — no retry. -/
theorem C3_fetch_failure (self : ImageCache) (url : String) (now : Int)
    (fetch : FetchResult) (hq : url ∉ self.download_queue) :
    (url ∉ (ImageCache.get self url now fetch).state.download_queue)
    ∧ ((ImageCache.get self url now fetch).attempts ≤ 1)
    ∧ (self.disk (urlHash url) = none → fetch.isFailure = true →
        ((ImageCache.get self url now fetch).ret = none
          ∧ (ImageCache.get self url now fetch).attempts = 1)) := by
  have hfilter : ∀ l : List String, url ∉ l.filter (fun s => s != url) := by
    intro l hmem
    rw [List.mem_filter] at hmem
    simp at hmem
  cases hdisk : self.disk (urlHash url) with
  | some c =>
    refine ⟨?_, ?_, ?_⟩
    · simp only [ImageCache.get, hdisk]
      exact hfilter _
    · simp [ImageCache.get, hdisk]
    · intro hd
      exact absurd hd (fun h => Option.noConfusion h)
  | none =>
    cases fetch with
    | success chunks =>
      refine ⟨?_, ?_, ?_⟩
      · simp only [ImageCache.get, hdisk]
        exact hfilter _
      · simp [ImageCache.get, hdisk]
      · intro _ hf
        simp [FetchResult.isFailure] at hf
    | failBeforeOpen =>
      refine ⟨?_, ?_, ?_⟩
      · simp only [ImageCache.get, hdisk]
        exact hfilter _
      · simp [ImageCache.get, hdisk]
      · intro _ _
        constructor <;> simp [ImageCache.get, hdisk]
    | failAfterChunks chunks =>
      refine ⟨?_, ?_, ?_⟩
      · simp only [ImageCache.get, hdisk]
        exact hfilter _
      · simp [ImageCache.get, hdisk]
      · intro _ _
        constructor <;> simp [ImageCache.get, hdisk]

/-- Example cache state for the C3/C9 witnesses: fresh, empty cache. -/
def cacheEmptyEx : ImageCache :=
  { last_hit := [], download_queue := [], disk := fun _ => none }

/-- C3 witness: a failed fetch on an empty cache returns `None` from a
single attempt and leaves the URL out of the download queue. -/
theorem C3_fetch_failure_witness :
    ("http://x/i.png"
        ∉ (ImageCache.get cacheEmptyEx "http://x/i.png" 0 .failBeforeOpen).state.download_queue)
    ∧ ((ImageCache.get cacheEmptyEx "http://x/i.png" 0 .failBeforeOpen).ret = none
        ∧ (ImageCache.get cacheEmptyEx "http://x/i.png" 0 .failBeforeOpen).attempts = 1) :=
  have h := C3_fetch_failure cacheEmptyEx "http://x/i.png" 0 .failBeforeOpen (by simp [cacheEmptyEx])
  ⟨h.1, h.2.2 rfl rfl⟩

/-- A `get` entered with a cached file on disk takes the cache-hit
path: it returns the file contents and performs no fetch attempt. -/
theorem ImageCache.get_hit (self : ImageCache) (url : String) (now : Int)
    (fetch : FetchResult) (c : List Nat) (h : self.disk (urlHash url) = some c) :
    (ImageCache.get self url now fetch).ret = some c
    ∧ (ImageCache.get self url now fetch).attempts = 0 := by
  constructor <;> simp [ImageCache.get, h]

/-- C9: when the fetch fails after writing some chunks, `get` returns
`None` to its caller, yet the partially written file stays on disk at
the digest path; a subsequent `get` for the same URL (whatever its
fetch oracle would do) finds that file, performs no fetch attempt, and
returns the truncated contents as if they were a complete cached
payload. -/
theorem C9_truncated_cache_poisoning (self : ImageCache) (url : String)
    (now1 now2 : Int) (chunks : List (List Nat)) (fetch2 : FetchResult)
    (hq : url ∉ self.download_queue)
    (hd : self.disk (urlHash url) = none)
    (hc : chunks ≠ []) :
    ((ImageCache.get self url now1 (.failAfterChunks chunks)).ret = none)
    ∧ ((ImageCache.get self url now1 (.failAfterChunks chunks)).state.disk (urlHash url)
        = some chunks.flatten)
    ∧ ((ImageCache.get (ImageCache.get self url now1 (.failAfterChunks chunks)).state
          url now2 fetch2).ret = some chunks.flatten)
    ∧ ((ImageCache.get (ImageCache.get self url now1 (.failAfterChunks chunks)).state
          url now2 fetch2).attempts = 0) := by
  have h1ret : (ImageCache.get self url now1 (.failAfterChunks chunks)).ret = none := by
    simp [ImageCache.get, hd]
  have h1disk : (ImageCache.get self url now1 (.failAfterChunks chunks)).state.disk
      (urlHash url) = some chunks.flatten := by
    simp [ImageCache.get, hd]
  exact ⟨h1ret, h1disk,
    (ImageCache.get_hit _ url now2 fetch2 _ h1disk).1,
    (ImageCache.get_hit _ url now2 fetch2 _ h1disk).2⟩

/-- C9 witness: two concrete chunks are written before the failure; the
first `get` returns `None`, the second returns the truncated bytes. -/
theorem C9_truncated_cache_poisoning_witness :
    ((ImageCache.get cacheEmptyEx "u" 0 (.failAfterChunks [[1, 2], [3]])).ret = none)
    ∧ ((ImageCache.get (ImageCache.get cacheEmptyEx "u" 0
          (.failAfterChunks [[1, 2], [3]])).state "u" 5 .failBeforeOpen).ret
        = some [1, 2, 3]) := by
  have h := C9_truncated_cache_poisoning cacheEmptyEx "u" 0 5 [[1, 2], [3]] .failBeforeOpen
    (by simp [cacheEmptyEx]) rfl (by simp)
  refine ⟨h.1, ?_⟩
  rw [h.2.2.1]
  rfl

end VrcEmbed
